import Mathlib

/-!
Verification of the jncep tracking / synchronization core (`src/jncep/track.py`).

Strings are modelled as `List Char` (`Str`); the persisted tracking store is an
association list from series URL to stored value, with Python-dict update
semantics (`setKey`: update in place keeps the position of the key, a new key is
appended at the end).  Network-bound collaborators (`core.resolve_series`,
`core.fetch_volumes_meta`, `core.fetch_parts_meta`) are an abstract `Gateway`;
per-series tasks spawned in the trio nursery are executed in spawn order (the
spec leaves sibling order unspecified and every claim proved here is insensitive
to it).  API traffic is recorded in explicit call logs so that call-count
claims can be stated.
-/

namespace Jncep

/-- Strings, modelled as lists of characters. -/
abbrev Str := List Char

/-- A value stored in the tracking store for one series: either the legacy
scalar format (just the part ordinal) or the current structured record with
fields `name`, `part`, `part_date` (`part_date` is absent in records produced
by migration of legacy entries). -/
inductive TrackValue where
  | scalar (part : Int)
  | record (name : Str) (part : Int) (part_date : Option Str)
deriving DecidableEq, Repr

/-- The tracking store: an ordered mapping from series URL to stored value
(`track.py` keeps it as an `OrderedDict` / `Addict`). -/
abbrev TrackedStore := List (Str × TrackValue)

/-- The list of keys of the store, in order. -/
def keyList (m : TrackedStore) : List Str := m.map Prod.fst

/-- Python `k in d` membership test. -/
def containsKey (m : TrackedStore) (k : Str) : Bool := m.any (fun p => p.1 == k)

/-- Python `d[k]` lookup (first pair with the key; keys are unique in a dict). -/
def getVal (m : TrackedStore) (k : Str) : Option TrackValue :=
  (m.find? (fun p => p.1 == k)).map Prod.snd

/-- Python `d[k] = v`: update the key's pair in place if the key exists
(keeping its position — a dict has at most one pair per key), otherwise append
the new pair at the end. -/
def setKey : TrackedStore → Str → TrackValue → TrackedStore
  | [], k, v => [(k, v)]
  | p :: ps, k, v => if p.1 == k then (k, v) :: ps else p :: setKey ps k v

/-- Modelled from the spec: the current-format canonical series URL base used
by `jncweb.url_from_series_slug` (module `jncweb` is not under `src/`; §3 of
the spec requires every migrated key to be in the current URL canonical
form). -/
def currentBase : Str := "https://j-novel.club/series/".data

/-- Modelled from the spec: the legacy-form canonical series URL base that
`jncweb.to_new_website_series_url` rewrites to the current format. -/
def legacyBase : Str := "https://j-novel.club/s/".data

/-- Boolean test that `p` is an initial segment of `s` (arguments: pattern,
then string). -/
def startsWithL : Str → Str → Bool
  | [], _ => true
  | _ :: _, [] => false
  | p :: ps, c :: cs => p == c && startsWithL ps cs

/-- Modelled from the spec: `jncweb.url_from_series_slug` builds the full
canonical (current-format) series URL from a slug. -/
def url_from_series_slug (slug : Str) : Str := currentBase ++ slug

/-- Modelled from the spec: `jncweb.to_new_website_series_url` rewrites a
legacy-form canonical URL to the current URL format and leaves any other
string unchanged. -/
def to_new_website_series_url (u : Str) : Str :=
  if startsWithL legacyBase u then currentBase ++ u.drop legacyBase.length else u

/-- Python `str.replace("-", " ")` for single characters: map every dash to a
space (`track.py` line 47). -/
def replaceDashWithSpace (s : Str) : Str :=
  s.map (fun c => if c == '-' then ' ' else c)

/-- Python `str.title()` on the characters: uppercase every alphabetic
character that follows a non-alphabetic one, lowercase the rest (the boolean
argument records whether the previous character was alphabetic). -/
def titleCase : Bool → Str → Str
  | _, [] => []
  | prev, c :: cs =>
      (if c.isAlpha then (if prev then c.toLower else c.toUpper) else c)
        :: titleCase c.isAlpha cs

/-- Title synthesized from a slug by `_convert_to_latest_format` (line 47):
`series_slug.replace("-", " ").title()`. -/
def synthName (slug : Str) : Str := titleCase false (replaceDashWithSpace slug)

/-- First pass of `_convert_to_latest_format` (lines 42-51): a non-dict value
is a legacy scalar entry whose key is a slug — replace the key by the full
canonical URL and wrap the value into a record with a synthesized name; a dict
value is copied unchanged under its key. -/
def convertStep1 (acc : TrackedStore) (kv : Str × TrackValue) : TrackedStore :=
  match kv with
  | (k, .scalar p) =>
      setKey acc (url_from_series_slug k) (.record (synthName k) p none)
  | (k, .record n p d) => setKey acc k (.record n p d)

/-- Second pass of `_convert_to_latest_format` (lines 53-56): every key is
rewritten by `to_new_website_series_url`. -/
def convertStep2 (acc : TrackedStore) (kv : Str × TrackValue) : TrackedStore :=
  setKey acc (to_new_website_series_url kv.1) kv.2

/-- Migration of the persisted data to the latest format
(`_convert_to_latest_format`, `track.py` lines 35-58): the two dict-building
loops become two folds with Python-dict insertion semantics. -/
def _convert_to_latest_format (data : TrackedStore) : TrackedStore :=
  (data.foldl convertStep1 []).foldl convertStep2 []

/-- The key under which a single input pair is inserted by the first migration
pass. -/
def step1Key (kv : Str × TrackValue) : Str :=
  match kv with
  | (k, .scalar _) => url_from_series_slug k
  | (k, .record _ _ _) => k

/-- The value inserted for a single input pair by the first migration pass. -/
def step1Val (kv : Str × TrackValue) : TrackValue :=
  match kv with
  | (k, .scalar p) => .record (synthName k) p none
  | (_, .record n p d) => .record n p d

/-- The single-entry effect of the whole migration: first-pass key/value
transformation followed by the second-pass URL rewrite of the key. -/
def entryMap (kv : Str × TrackValue) : Str × TrackValue :=
  (to_new_website_series_url (step1Key kv), step1Val kv)

/-- Whether a stored value is a structured record (a Python dict). -/
def isRecordVal : TrackValue → Bool
  | .record _ _ _ => true
  | .scalar _ => false

/-- The raw API data of a series (`series.raw_data`): its slug and title. -/
structure RawSeries where
  slug : Str
  title : Str
deriving DecidableEq, Repr

/-- A resolved series handle as returned by `core.resolve_series`. -/
structure SeriesH where
  series_id : Int
  raw_data : RawSeries
deriving DecidableEq, Repr

/-- Metadata of one part: the spec's glossary gives a part a relative ordinal
and a publish (launch) timestamp (`last_part.raw_data.launch` in the code). -/
structure PartMeta where
  relative_ordinal : Int
  launch : Str
deriving DecidableEq, Repr

/-- Modelled from the spec: the Remote Follow Gateway (external collaborator,
interface only, spec §6) — `core.resolve_series` keyed by the resource URL,
`core.fetch_volumes_meta` returning the volume ids of a series, and
`core.fetch_parts_meta` returning the parts of a volume.  Module `core` is not
under `src/`. -/
structure Gateway where
  resolve_series : Str → SeriesH
  fetch_volumes_meta : Int → List Int
  fetch_parts_meta : Int → List PartMeta

/-- Modelled from the spec: `spec.to_relative_spec_from_part` — the relative
ordinal of a part (module `spec` is not under `src/`; the spec's data model
stores a relative part number). -/
def to_relative_spec_from_part (p : PartMeta) : Int := p.relative_ordinal

/-- The sentinel past date recorded when a tracked series has no parts yet
(`track.py` line 107). -/
def sentinelDate : Str := "1111-11-11T11:11:11.111Z".data

/-- One metadata call issued against the gateway. -/
inductive ApiCall where
  | resolveSeries (url : Str)
  | volumesMeta (series_id : Int)
  | partsMeta (volume_id : Int)
deriving DecidableEq, Repr

/-- The last part of the last volume of a series, if any: `fill_meta_for_track`
(lines 75-90) fetches all volumes but only the last volume's parts, and
`track_series` (lines 96-100) takes the last of those parts. -/
def lastPartOfLastVolume (g : Gateway) (sid : Int) : Option PartMeta :=
  match (g.fetch_volumes_meta sid).getLast? with
  | none => none
  | some vid => (g.fetch_parts_meta vid).getLast?

/-- The record inserted for a newly tracked series (`track_series`,
lines 102-135): part 0 and the sentinel date when there is no last part,
otherwise the relative ordinal and launch date of the last part. -/
def track_record (g : Gateway) (s : SeriesH) : TrackValue :=
  match lastPartOfLastVolume g s.series_id with
  | none => .record s.raw_data.title 0 (some sentinelDate)
  | some p => .record s.raw_data.title (to_relative_spec_from_part p)
      (some p.launch)

/-- The metadata calls issued by `fill_meta_for_track` (lines 75-90): one
volumes fetch, plus one parts fetch for the last volume when the series has
any volume. -/
def track_calls (g : Gateway) (sid : Int) : List ApiCall :=
  ApiCall.volumesMeta sid ::
    match (g.fetch_volumes_meta sid).getLast? with
    | none => []
    | some vid => [ApiCall.partsMeta vid]

/-- The tracking of one resolved series (`track_series`, lines 93-135): the
store gains the entry keyed by the URL built from the resolved slug; the calls
issued are those of `fill_meta_for_track`. -/
def track_series (g : Gateway) (tracked : TrackedStore) (s : SeriesH) :
    TrackedStore × List ApiCall :=
  (setKey tracked (url_from_series_slug s.raw_data.slug) (track_record g s),
   track_calls g s.series_id)

/-- The canonical URL of the series obtained by resolving a resource URL. -/
def resolvedUrl (g : Gateway) (u : Str) : Str :=
  url_from_series_slug (g.resolve_series u).raw_data.slug

/-- One remote follow entry (`FollowedSeries` in the spec): its URL and the
`follow_raw_data` id and title used by the unfollow path (lines 211-212). -/
structure FollowedSeries where
  url : Str
  follow_id : Int
  follow_title : Str
deriving DecidableEq, Repr

/-- The `do_track` task body of `sync_series_forward` (lines 148-153):
resolve the series, track it, report the slug-derived URL, and log the calls
made. -/
def do_track (g : Gateway) (tracked : TrackedStore) (url : Str) :
    TrackedStore × Str × List ApiCall :=
  ((track_series g tracked (g.resolve_series url)).1,
   resolvedUrl g url,
   ApiCall.resolveSeries url :: (track_series g tracked (g.resolve_series url)).2)

/-- The mutable state shared by the forward-sync tasks: the tracking store,
the `new_synced` and `del_synced` accumulation lists, and the log of gateway
calls issued so far. -/
structure SyncState where
  tracked : TrackedStore
  new_synced : List Str
  del_synced : List Str
  callLog : List ApiCall
deriving DecidableEq, Repr

/-- The state at the start of `sync_series_forward` (lines 140-141). -/
def initState (tracked : TrackedStore) : SyncState :=
  ⟨tracked, [], [], []⟩

/-- One spawned `do_track` task applied to the shared state. -/
def forwardTask (g : Gateway) (st : SyncState) (f : FollowedSeries) : SyncState :=
  { tracked := (do_track g st.tracked f.url).1
    new_synced := st.new_synced ++ [(do_track g st.tracked f.url).2.1]
    del_synced := st.del_synced
    callLog := st.callLog ++ (do_track g st.tracked f.url).2.2 }

/-- The gateway calls that one `do_track` task for follow `f` issues (they do
not depend on the store contents). -/
def syncCallsFor (g : Gateway) (f : FollowedSeries) : List ApiCall :=
  ApiCall.resolveSeries f.url :: track_calls g (g.resolve_series f.url).series_id

/-- Whether a stored pair's key is among the followed URLs (`followed_index`
membership test of lines 162-165). -/
def keepFollowed (follows : List FollowedSeries) (kv : Str × TrackValue) : Bool :=
  follows.any (fun f => f.url == kv.1)

/-- Forward synchronization (`sync_series_forward`, lines 138-172).  The
nursery spawns one `do_track` task per follow whose URL is not already a key
of the store (the membership test happens at spawn time, before any task has
run); the tasks are executed in spawn order.  With deletion enabled, every
store entry whose URL is not followed is then removed and reported in
`del_synced`, in store order. -/
def sync_series_forward (g : Gateway) (follows : List FollowedSeries)
    (tracked : TrackedStore) (is_delete : Bool) : SyncState :=
  let st1 := (follows.filter (fun f => !containsKey tracked f.url)).foldl
    (forwardTask g) (initState tracked)
  if is_delete then
    { st1 with
      tracked := st1.tracked.filter (keepFollowed follows)
      del_synced := st1.del_synced ++
        (st1.tracked.filter (fun kv => !keepFollowed follows kv)).map Prod.fst }
  else st1

/-- One follow or unfollow call issued against the remote API
(`session.api.follow_series` / `session.api.unfollow_series`). -/
inductive RemoteCall where
  | follow (series_id : Int)
  | unfollow (series_id : Int)
deriving DecidableEq, Repr

/-- One iteration of the `do_follow` loop of `sync_series_backward`
(lines 183-203): a tracked URL already followed is skipped; otherwise the
series (passed through `partial`, so correctly bound per task) is resolved and
followed remotely.  The URL appended to `new_synced` is NOT the task's own
URL: `new_synced.append(series_url)` (line 200) reads the enclosing loop
variable `series_url`, and because every task only runs after the spawn loop
has finished, each task appends the loop variable's final value — the last
key iterated over the store — passed here as `lateSeriesUrl`. -/
def backFollowStep (g : Gateway) (followedUrls : List Str) (lateSeriesUrl : Str)
    (acc : List Str × List RemoteCall) (u : Str) : List Str × List RemoteCall :=
  if followedUrls.contains u then acc
  else (acc.1 ++ [lateSeriesUrl],
    acc.2 ++ [RemoteCall.follow (g.resolve_series u).series_id])

/-- One iteration of the unfollow loop of `sync_series_backward`
(lines 205-219): a follow whose URL is tracked is skipped; otherwise it is
unfollowed remotely (using `follow_raw_data.id`) and appended to
`del_synced`. -/
def backUnfollowStep (tracked : TrackedStore)
    (acc : List Str × List RemoteCall) (f : FollowedSeries) :
    List Str × List RemoteCall :=
  if containsKey tracked f.url then acc
  else (acc.1 ++ [f.url], acc.2 ++ [RemoteCall.unfollow f.follow_id])

/-- Backward synchronization (`sync_series_backward`, lines 175-223): for
every tracked URL absent from the follows, resolve it and follow it remotely
(`do_follow`, lines 190-200); with deletion enabled, unfollow every follow
whose URL is not tracked, using its `follow_raw_data` id (lines 205-219).
Returns `new_synced`, `del_synced` and the remote calls issued (tasks in
spawn order).  The loop variable of the `for series_url in tracked_series`
loop holds the store's last key after the loop, which is what the late-bound
append of line 200 reads (the first loop iterates every key; `continue` only
skips the body). -/
def sync_series_backward (g : Gateway) (follows : List FollowedSeries)
    (tracked : TrackedStore) (is_delete : Bool) :
    List Str × List Str × List RemoteCall :=
  let p1 := (keyList tracked).foldl
    (backFollowStep g (follows.map FollowedSeries.url)
      ((keyList tracked).getLastD [])) ([], [])
  if is_delete then
    let p2 := follows.foldl (backUnfollowStep tracked) ([], [])
    (p1.1, p2.1, p1.2 ++ p2.2)
  else (p1.1, [], p1.2)

/-- Whether the remote series has any published part in any of its volumes
(spec §4.2: "if the series has no published parts yet"). -/
def hasPublishedParts (g : Gateway) (sid : Int) : Bool :=
  (g.fetch_volumes_meta sid).any (fun vid => !(g.fetch_parts_meta vid).isEmpty)

/-- Modelled from the spec: the outcome of opening and JSON-parsing the
persisted `tracked.json` (the file system and `json.load` are outside
`src/`): the file may be missing, hold invalid JSON, or parse to a mapping. -/
inductive FileReadResult where
  | missing
  | invalidJson
  | content (data : TrackedStore)

/-- The fatal error surfaced when the persisted file holds malformed JSON. -/
inductive LoadError where
  | jsonDecodeError
deriving DecidableEq, Repr

/-- Loading of the store (`read_tracked_series`, lines 23-32): a missing file
yields an empty store (only `FileNotFoundError` is caught), a parsed mapping
is migrated before being returned, and a JSON parse failure propagates. -/
def read_tracked_series : FileReadResult → Except LoadError TrackedStore
  | .missing => .ok []
  | .invalidJson => .error .jsonDecodeError
  | .content d => .ok (_convert_to_latest_format d)

/-- Key ordering of the serialized store (Python `sort_keys=True` compares
the key strings). -/
def keyLeOn (a b : Str × TrackValue) : Prop := a.1 ≤ b.1

instance : DecidableRel keyLeOn :=
  fun a b => inferInstanceAs (Decidable (a.1 ≤ b.1))

instance : IsTotal (Str × TrackValue) keyLeOn :=
  ⟨fun a b => le_total a.1 b.1⟩

instance : IsTrans (Str × TrackValue) keyLeOn :=
  ⟨fun _ _ _ h1 h2 => le_trans h1 h2⟩

/-- Modelled from the spec: the serialized form of the store written by
`json.dumps(tracked, sort_keys=True, indent=2)` — the store's pairs in sorted
key order (the JSON text itself is abstracted to the ordered pair list). -/
def serialize_tracked (m : TrackedStore) : TrackedStore :=
  List.insertionSort keyLeOn m

/-- Saving of the store (`write_tracked_series`, lines 61-64): the content
written (to the temporary file, then renamed into place) is the sorted
serialization. -/
def write_tracked_series (tracked : TrackedStore) : TrackedStore :=
  serialize_tracked tracked

/-- Modelled from the spec: the stages of an `atomic_write` save — before any
write, while the temporary file is being written (any byte count), after the
temporary file is complete, and after the rename into place. -/
inductive SaveStage where
  | beforeSave
  | midTempWrite (bytesWritten : Nat)
  | tempComplete
  | afterRename
deriving DecidableEq, Repr

/-- Modelled from the spec: the content of the target file observed at each
stage of the save — the pre-existing content until the rename, the full
serialized store afterwards (the temporary file is a different path). -/
def observed_target_file (orig : TrackedStore) (tracked : TrackedStore) :
    SaveStage → TrackedStore
  | .afterRename => write_tracked_series tracked
  | _ => orig

/-! Concrete fixtures used in witness and counterexample statements. -/

/-- A one-character slug used by the concrete fixtures. -/
def slugA : Str := ['a']

/-- The current-format URL of the fixture series. -/
def curA : Str := url_from_series_slug slugA

/-- The legacy-form URL of the fixture series. -/
def legA : Str := legacyBase ++ slugA

/-- A second, distinct current-format URL. -/
def curB : Str := url_from_series_slug ['b']

/-- A fixture series handle whose slug is `slugA`. -/
def seriesA : SeriesH := ⟨7, ⟨slugA, ['T']⟩⟩

/-- A fixture gateway for a series with no volumes at all. -/
def gatewayNoParts : Gateway := ⟨fun _ => seriesA, fun _ => [], fun _ => []⟩

/-- A fixture gateway for a series whose single volume 5 has one part. -/
def gatewayLastPart : Gateway :=
  ⟨fun _ => seriesA, fun _ => [5], fun vid => if vid == 5 then [⟨3, ['d']⟩] else []⟩

/-- A fixture gateway for a series with two volumes where only the first
volume has a part and the last volume is still empty. -/
def gatewayEmptyLastVolume : Gateway :=
  ⟨fun _ => seriesA, fun _ => [1, 2],
   fun vid => if vid == 1 then [⟨1, ['d']⟩] else []⟩

/-- A fixture gateway resolving distinct series ids per URL (id 1 for `curA`,
id 2 for anything else). -/
def gatewayTwoIds : Gateway :=
  ⟨fun u => if u == curA then ⟨1, ⟨slugA, ['T']⟩⟩ else ⟨2, ⟨['b'], ['U']⟩⟩,
   fun _ => [], fun _ => []⟩

/-! Basic lemmas about the store operations. -/

theorem containsKey_iff (m : TrackedStore) (u : Str) :
    containsKey m u = true ↔ u ∈ keyList m := by
  induction m with
  | nil => simp [containsKey, keyList]
  | cons q qs ih =>
    simp only [containsKey, List.any_cons, Bool.or_eq_true, keyList, List.map_cons,
      List.mem_cons]
    constructor
    · rintro (hq | hqs)
      · exact Or.inl (eq_of_beq hq).symm
      · exact Or.inr (ih.mp hqs)
    · rintro (rfl | hu)
      · exact Or.inl (by simp)
      · exact Or.inr (ih.mpr hu)

theorem keyList_setKey (m : TrackedStore) (k : Str) (v : TrackValue) :
    keyList (setKey m k v) =
      if containsKey m k then keyList m else keyList m ++ [k] := by
  induction m with
  | nil => simp [setKey, containsKey, keyList]
  | cons q qs ih =>
    by_cases hq : q.1 == k
    · simp [setKey, containsKey, keyList, hq, eq_of_beq hq]
    · by_cases hc : containsKey qs k
      · simp only [containsKey] at hc
        simp [setKey, containsKey, keyList, hq, hc] at ih ⊢
        exact ih
      · simp only [containsKey] at hc
        simp [setKey, containsKey, keyList, hq, hc] at ih ⊢
        exact ih

theorem mem_keyList_setKey (m : TrackedStore) (k u : Str) (v : TrackValue) :
    u ∈ keyList (setKey m k v) ↔ u ∈ keyList m ∨ u = k := by
  rw [keyList_setKey]
  by_cases h : containsKey m k
  · simp only [h, if_true]
    constructor
    · exact Or.inl
    · rintro (hu | rfl)
      · exact hu
      · exact (containsKey_iff m u).mp h
  · simp [h]

theorem getVal_setKey_self (m : TrackedStore) (k : Str) (v : TrackValue) :
    getVal (setKey m k v) k = some v := by
  induction m with
  | nil => simp [setKey, getVal]
  | cons q qs ih =>
    by_cases hq : q.1 == k
    · simp [setKey, getVal, hq]
    · simp only [setKey, hq, if_false]
      simp only [getVal, List.find?, hq]
      exact ih

theorem getVal_setKey_ne (m : TrackedStore) (k u : Str) (v : TrackValue)
    (h : u ≠ k) : getVal (setKey m k v) u = getVal m u := by
  have hku : (k == u) = false := by
    rw [beq_eq_false_iff_ne]
    exact fun he => h he.symm
  induction m with
  | nil => simp [setKey, getVal, hku]
  | cons q qs ih =>
    by_cases hq : q.1 == k
    · have hqu : (q.1 == u) = false := by
        rw [beq_eq_false_iff_ne, eq_of_beq hq]
        exact fun he => h he.symm
      simp [setKey, getVal, hq, hku, hqu, List.find?]
    · simp only [setKey, hq, if_false]
      by_cases hqu : q.1 == u
      · simp [getVal, List.find?, hqu]
      · simp only [getVal, List.find?, hqu, if_false] at ih ⊢
        exact ih

theorem mem_setKey_elim (m : TrackedStore) (k : Str) (v : TrackValue)
    (p : Str × TrackValue) (hp : p ∈ setKey m k v) : p ∈ m ∨ p = (k, v) := by
  induction m with
  | nil =>
    simp [setKey] at hp
    exact Or.inr hp
  | cons q qs ih =>
    by_cases hq : q.1 == k
    · simp only [setKey, hq, if_true, List.mem_cons] at hp
      rcases hp with hpk | hp
      · exact Or.inr hpk
      · exact Or.inl (List.mem_cons_of_mem q hp)
    · simp only [setKey, hq, Bool.false_eq_true, if_false, List.mem_cons] at hp
      rcases hp with hpq | hp
      · exact Or.inl (List.mem_cons.mpr (Or.inl hpq))
      · rcases ih hp with hm | he
        · exact Or.inl (List.mem_cons_of_mem q hm)
        · exact Or.inr he

theorem nodup_keyList_setKey (m : TrackedStore) (k : Str) (v : TrackValue)
    (h : (keyList m).Nodup) : (keyList (setKey m k v)).Nodup := by
  rw [keyList_setKey]
  by_cases hc : containsKey m k
  · simpa [hc] using h
  · have hk : k ∉ keyList m := fun hm => hc ((containsKey_iff m k).mpr hm)
    simp only [hc, if_false]
    simp [List.nodup_append, h, hk]

theorem setKey_of_not_contains (m : TrackedStore) (k : Str) (v : TrackValue)
    (h : containsKey m k = false) : setKey m k v = m ++ [(k, v)] := by
  induction m with
  | nil => simp [setKey]
  | cons q qs ih =>
    simp only [containsKey, List.any_cons, Bool.or_eq_false_iff] at h
    simp only [setKey, h.1, Bool.false_eq_true, if_false, List.cons_append,
      List.cons.injEq, true_and]
    exact ih h.2

/-! Lemmas about the URL canonicalization. -/

theorem startsWithL_legacy_current (s : Str) :
    startsWithL legacyBase (currentBase ++ s) = false := rfl

theorem to_new_fixed_of_current (s : Str) :
    to_new_website_series_url (currentBase ++ s) = currentBase ++ s := by
  simp [to_new_website_series_url, startsWithL_legacy_current]

theorem to_new_idem (u : Str) :
    to_new_website_series_url (to_new_website_series_url u) =
      to_new_website_series_url u := by
  by_cases h : startsWithL legacyBase u = true
  · have h1 : to_new_website_series_url u =
        currentBase ++ u.drop legacyBase.length := by
      simp [to_new_website_series_url, h]
    rw [h1, to_new_fixed_of_current]
  · have h1 : to_new_website_series_url u = u := by
      simp [to_new_website_series_url, h]
    rw [h1, h1]

theorem convertStep1_eq (acc : TrackedStore) (kv : Str × TrackValue) :
    convertStep1 acc kv = setKey acc (step1Key kv) (step1Val kv) := by
  rcases kv with ⟨k, v⟩
  cases v <;> rfl

theorem step1Val_isRecord (kv : Str × TrackValue) :
    isRecordVal (step1Val kv) = true := by
  rcases kv with ⟨k, v⟩
  cases v <;> rfl

/-! Generic lemmas about folding `setKey`-shaped insertions over a list. -/

theorem mem_keyList_foldl_setKey (ck : Str × TrackValue → Str)
    (cv : Str × TrackValue → TrackValue) (l : List (Str × TrackValue))
    (acc : TrackedStore) (u : Str) :
    u ∈ keyList (l.foldl (fun a kv => setKey a (ck kv) (cv kv)) acc) ↔
      u ∈ keyList acc ∨ ∃ kv ∈ l, ck kv = u := by
  induction l generalizing acc with
  | nil =>
    rw [List.foldl_nil]
    constructor
    · exact Or.inl
    · rintro (h | ⟨kv, hkv, _⟩)
      · exact h
      · exact absurd hkv (List.not_mem_nil kv)
  | cons x xs ih =>
    rw [List.foldl_cons, ih, mem_keyList_setKey]
    simp only [List.mem_cons, exists_eq_or_imp]
    constructor
    · rintro ((h | h) | h)
      · exact Or.inl h
      · exact Or.inr (Or.inl h.symm)
      · exact Or.inr (Or.inr h)
    · rintro (h | h | h)
      · exact Or.inl (Or.inl h)
      · exact Or.inl (Or.inr h.symm)
      · exact Or.inr h

theorem mem_foldl_setKey_elim (ck : Str × TrackValue → Str)
    (cv : Str × TrackValue → TrackValue) (l : List (Str × TrackValue))
    (acc : TrackedStore) (p : Str × TrackValue)
    (hp : p ∈ l.foldl (fun a kv => setKey a (ck kv) (cv kv)) acc) :
    p ∈ acc ∨ ∃ kv ∈ l, p = (ck kv, cv kv) := by
  induction l generalizing acc with
  | nil =>
    exact Or.inl hp
  | cons x xs ih =>
    rw [List.foldl_cons] at hp
    rcases ih _ hp with hacc | ⟨kv, hkv, he⟩
    · rcases mem_setKey_elim _ _ _ _ hacc with h1 | h2
      · exact Or.inl h1
      · exact Or.inr ⟨x, List.mem_cons_self x xs, h2⟩
    · exact Or.inr ⟨kv, List.mem_cons_of_mem x hkv, he⟩

theorem nodup_keyList_foldl_setKey (ck : Str × TrackValue → Str)
    (cv : Str × TrackValue → TrackValue) (l : List (Str × TrackValue))
    (acc : TrackedStore) (h : (keyList acc).Nodup) :
    (keyList (l.foldl (fun a kv => setKey a (ck kv) (cv kv)) acc)).Nodup := by
  induction l generalizing acc with
  | nil => exact h
  | cons x xs ih =>
    rw [List.foldl_cons]
    exact ih _ (nodup_keyList_setKey _ _ _ h)

theorem foldl_setKey_rebuild (ck : Str × TrackValue → Str)
    (cv : Str × TrackValue → TrackValue) (l : List (Str × TrackValue))
    (acc : TrackedStore) (hid : ∀ kv ∈ l, (ck kv, cv kv) = kv)
    (hnd : (keyList acc ++ keyList l).Nodup) :
    l.foldl (fun a kv => setKey a (ck kv) (cv kv)) acc = acc ++ l := by
  induction l generalizing acc with
  | nil => simp
  | cons x xs ih =>
    have hx : (ck x, cv x) = x := hid x (List.mem_cons_self x xs)
    have hckx : ck x = x.1 := congrArg Prod.fst hx
    have hcvx : cv x = x.2 := congrArg Prod.snd hx
    have hhead : x.1 ∈ keyList (x :: xs) := List.mem_cons_self x.1 (keyList xs)
    have hdisj := List.disjoint_of_nodup_append hnd
    have hnotin : x.1 ∉ keyList acc := fun hmem => hdisj hmem hhead
    have hcf : containsKey acc x.1 = false := by
      rw [Bool.eq_false_iff]
      intro hc
      exact hnotin ((containsKey_iff acc x.1).mp hc)
    have hstep : setKey acc (ck x) (cv x) = acc ++ [x] := by
      rw [hckx, hcvx, setKey_of_not_contains acc x.1 x.2 hcf]
    have hid2 : ∀ kv ∈ xs, (ck kv, cv kv) = kv :=
      fun kv hkv => hid kv (List.mem_cons_of_mem x hkv)
    have hnd2 : (keyList (acc ++ [x]) ++ keyList xs).Nodup := by
      have he : keyList (acc ++ [x]) ++ keyList xs =
          keyList acc ++ keyList (x :: xs) := by
        simp only [keyList, List.map_append, List.map_cons, List.map_nil,
          List.append_assoc, List.singleton_append]
      rw [he]
      exact hnd
    calc (x :: xs).foldl (fun a kv => setKey a (ck kv) (cv kv)) acc
        = xs.foldl (fun a kv => setKey a (ck kv) (cv kv))
            (setKey acc (ck x) (cv x)) := rfl
      _ = xs.foldl (fun a kv => setKey a (ck kv) (cv kv)) (acc ++ [x]) := by
            rw [hstep]
      _ = (acc ++ [x]) ++ xs := ih _ hid2 hnd2
      _ = acc ++ x :: xs := by simp

theorem convert_foldl1_eq (data : List (Str × TrackValue)) (acc : TrackedStore) :
    data.foldl convertStep1 acc =
      data.foldl (fun a kv => setKey a (step1Key kv) (step1Val kv)) acc := by
  induction data generalizing acc with
  | nil => rfl
  | cons x xs ih => rw [List.foldl_cons, List.foldl_cons, convertStep1_eq, ih]

theorem convert_foldl2_eq (data : List (Str × TrackValue)) (acc : TrackedStore) :
    data.foldl convertStep2 acc =
      data.foldl
        (fun a kv => setKey a (to_new_website_series_url kv.1) kv.2) acc := rfl

theorem migrate_entry_provenance (data : TrackedStore) (p : Str × TrackValue)
    (hp : p ∈ _convert_to_latest_format data) : ∃ kv ∈ data, p = entryMap kv := by
  unfold _convert_to_latest_format at hp
  rw [convert_foldl2_eq] at hp
  rcases mem_foldl_setKey_elim (fun kv => to_new_website_series_url kv.1)
      (fun kv => kv.2) _ _ _ hp with h | ⟨kv1, hkv1, he1⟩
  · simp at h
  · rw [convert_foldl1_eq] at hkv1
    rcases mem_foldl_setKey_elim step1Key step1Val _ _ _ hkv1 with h | ⟨kv0, hkv0, he0⟩
    · simp at h
    · refine ⟨kv0, hkv0, ?_⟩
      rw [he1, he0, entryMap]

theorem migrate_values_record (data : TrackedStore) (p : Str × TrackValue)
    (hp : p ∈ _convert_to_latest_format data) : isRecordVal p.2 = true := by
  rcases migrate_entry_provenance data p hp with ⟨kv, _, he⟩
  rw [he, entryMap]
  exact step1Val_isRecord kv

theorem migrate_keys_fixed (data : TrackedStore) (p : Str × TrackValue)
    (hp : p ∈ _convert_to_latest_format data) :
    to_new_website_series_url p.1 = p.1 := by
  rcases migrate_entry_provenance data p hp with ⟨kv, _, he⟩
  rw [he, entryMap]
  exact to_new_idem _

theorem migrate_nodup_keys (data : TrackedStore) :
    (keyList (_convert_to_latest_format data)).Nodup := by
  unfold _convert_to_latest_format
  rw [convert_foldl2_eq]
  exact nodup_keyList_foldl_setKey _ _ _ [] List.nodup_nil

theorem migrate_pass1_id (y : TrackedStore)
    (hrec : ∀ kv ∈ y, isRecordVal kv.2 = true) (hnd : (keyList y).Nodup) :
    y.foldl convertStep1 [] = y := by
  rw [convert_foldl1_eq]
  have hid : ∀ kv ∈ y, (step1Key kv, step1Val kv) = kv := by
    intro kv hkv
    have hr := hrec kv hkv
    rcases kv with ⟨k, v⟩
    cases v with
    | scalar p => simp [isRecordVal] at hr
    | record n p d => rfl
  have := foldl_setKey_rebuild step1Key step1Val y [] hid (by simpa using hnd)
  simpa using this

theorem migrate_pass2_id (y : TrackedStore)
    (hfix : ∀ kv ∈ y, to_new_website_series_url kv.1 = kv.1)
    (hnd : (keyList y).Nodup) : y.foldl convertStep2 [] = y := by
  rw [convert_foldl2_eq]
  have hid : ∀ kv ∈ y, (to_new_website_series_url kv.1, kv.2) = kv := by
    intro kv hkv
    rw [hfix kv hkv]
  have := foldl_setKey_rebuild (fun kv => to_new_website_series_url kv.1)
    (fun kv => kv.2) y [] hid (by simpa using hnd)
  simpa using this

theorem migrate_idem (data : TrackedStore) :
    _convert_to_latest_format (_convert_to_latest_format data) =
      _convert_to_latest_format data := by
  have h1 : (_convert_to_latest_format data).foldl convertStep1 [] =
      _convert_to_latest_format data :=
    migrate_pass1_id _ (migrate_values_record data) (migrate_nodup_keys data)
  have h2 : (_convert_to_latest_format data).foldl convertStep2 [] =
      _convert_to_latest_format data :=
    migrate_pass2_id _ (migrate_keys_fixed data) (migrate_nodup_keys data)
  calc _convert_to_latest_format (_convert_to_latest_format data)
      = ((_convert_to_latest_format data).foldl convertStep1 []).foldl
          convertStep2 [] := rfl
    _ = (_convert_to_latest_format data).foldl convertStep2 [] := by rw [h1]
    _ = _convert_to_latest_format data := h2

/-! Lemmas about the forward synchronization fold. -/

theorem forwardTask_tracked (g : Gateway) (st : SyncState) (f : FollowedSeries) :
    (forwardTask g st f).tracked =
      setKey st.tracked (resolvedUrl g f.url)
        (track_record g (g.resolve_series f.url)) := rfl

theorem forwardTask_new (g : Gateway) (st : SyncState) (f : FollowedSeries) :
    (forwardTask g st f).new_synced = st.new_synced ++ [resolvedUrl g f.url] := rfl

theorem forwardTask_del (g : Gateway) (st : SyncState) (f : FollowedSeries) :
    (forwardTask g st f).del_synced = st.del_synced := rfl

theorem forwardTask_log (g : Gateway) (st : SyncState) (f : FollowedSeries) :
    (forwardTask g st f).callLog = st.callLog ++ syncCallsFor g f := rfl

theorem foldl_forward_del (g : Gateway) (l : List FollowedSeries)
    (st : SyncState) :
    (l.foldl (forwardTask g) st).del_synced = st.del_synced := by
  induction l generalizing st with
  | nil => rfl
  | cons x xs ih => rw [List.foldl_cons, ih, forwardTask_del]

theorem foldl_forward_new (g : Gateway) (l : List FollowedSeries)
    (st : SyncState) :
    (l.foldl (forwardTask g) st).new_synced =
      st.new_synced ++ l.map (fun f => resolvedUrl g f.url) := by
  induction l generalizing st with
  | nil => simp
  | cons x xs ih =>
    rw [List.foldl_cons, ih, forwardTask_new, List.map_cons, List.append_assoc,
      List.singleton_append]

theorem foldl_forward_log (g : Gateway) (l : List FollowedSeries)
    (st : SyncState) :
    (l.foldl (forwardTask g) st).callLog =
      st.callLog ++ l.flatMap (syncCallsFor g) := by
  induction l generalizing st with
  | nil => simp
  | cons x xs ih =>
    rw [List.foldl_cons, ih, forwardTask_log, List.flatMap_cons,
      List.append_assoc]

theorem foldl_forward_tracked_mem (g : Gateway) (l : List FollowedSeries)
    (st : SyncState) (u : Str) :
    u ∈ keyList ((l.foldl (forwardTask g) st).tracked) ↔
      u ∈ keyList st.tracked ∨ ∃ f ∈ l, resolvedUrl g f.url = u := by
  induction l generalizing st with
  | nil =>
    rw [List.foldl_nil]
    constructor
    · exact Or.inl
    · rintro (h | ⟨f, hf, _⟩)
      · exact h
      · exact absurd hf (List.not_mem_nil f)
  | cons x xs ih =>
    rw [List.foldl_cons, ih, forwardTask_tracked, mem_keyList_setKey]
    simp only [List.mem_cons, exists_eq_or_imp]
    constructor
    · rintro ((h | h) | h)
      · exact Or.inl h
      · exact Or.inr (Or.inl h.symm)
      · exact Or.inr (Or.inr h)
    · rintro (h | h | h)
      · exact Or.inl (Or.inl h)
      · exact Or.inl (Or.inr h.symm)
      · exact Or.inr h

theorem mem_keyList_filter_keep (follows : List FollowedSeries)
    (m : TrackedStore) (u : Str) :
    u ∈ keyList (m.filter (keepFollowed follows)) ↔
      u ∈ keyList m ∧ ∃ f ∈ follows, f.url = u := by
  simp only [keyList, List.mem_map, List.mem_filter, keepFollowed,
    List.any_eq_true, beq_iff_eq]
  constructor
  · rintro ⟨kv, ⟨hkv, f, hf, hfu⟩, rfl⟩
    exact ⟨⟨kv, hkv, rfl⟩, f, hf, hfu⟩
  · rintro ⟨⟨kv, hkv, rfl⟩, f, hf, hfu⟩
    exact ⟨kv, ⟨hkv, f, hf, hfu⟩, rfl⟩

theorem mem_filter_spawned (tracked : TrackedStore) (follows : List FollowedSeries)
    (f : FollowedSeries) :
    f ∈ follows.filter (fun x => !containsKey tracked x.url) ↔
      f ∈ follows ∧ containsKey tracked f.url = false := by
  rw [List.mem_filter, Bool.not_eq_true']

/-! Lemmas about the backward synchronization folds. -/

theorem foldl_backFollow (g : Gateway) (followedUrls : List Str)
    (lateUrl : Str) (l : List Str) (a : List Str) (b : List RemoteCall) :
    l.foldl (backFollowStep g followedUrls lateUrl) (a, b) =
      (a ++ (l.filter (fun u => !followedUrls.contains u)).map
          (fun _ => lateUrl),
       b ++ (l.filter (fun u => !followedUrls.contains u)).map
         (fun u => RemoteCall.follow (g.resolve_series u).series_id)) := by
  induction l generalizing a b with
  | nil => simp
  | cons x xs ih =>
    rw [List.foldl_cons]
    by_cases hc : followedUrls.contains x
    · have hm : x ∈ followedUrls := List.elem_iff.mp hc
      have hstep : backFollowStep g followedUrls lateUrl (a, b) x = (a, b) := by
        simp [backFollowStep, hm]
      have hfil : (x :: xs).filter (fun u => !followedUrls.contains u) =
          xs.filter (fun u => !followedUrls.contains u) := by
        rw [List.filter_cons_of_neg]
        simp [hm]
      rw [hstep, hfil, ih]
    · have hnm : x ∉ followedUrls := fun hm => hc (List.elem_iff.mpr hm)
      have hstep : backFollowStep g followedUrls lateUrl (a, b) x =
          (a ++ [lateUrl],
           b ++ [RemoteCall.follow (g.resolve_series x).series_id]) := by
        simp [backFollowStep, hnm]
      have hfil : (x :: xs).filter (fun u => !followedUrls.contains u) =
          x :: xs.filter (fun u => !followedUrls.contains u) := by
        rw [List.filter_cons_of_pos]
        simp [hnm]
      rw [hstep, ih, hfil]
      simp

theorem foldl_backUnfollow (tracked : TrackedStore) (l : List FollowedSeries)
    (a : List Str) (b : List RemoteCall) :
    l.foldl (backUnfollowStep tracked) (a, b) =
      (a ++ (l.filter (fun f => !containsKey tracked f.url)).map
          FollowedSeries.url,
       b ++ (l.filter (fun f => !containsKey tracked f.url)).map
         (fun f => RemoteCall.unfollow f.follow_id)) := by
  induction l generalizing a b with
  | nil => simp
  | cons x xs ih =>
    rw [List.foldl_cons]
    by_cases hc : containsKey tracked x.url
    · have hstep : backUnfollowStep tracked (a, b) x = (a, b) := by
        simp [backUnfollowStep, hc]
      have hfil : (x :: xs).filter (fun f => !containsKey tracked f.url) =
          xs.filter (fun f => !containsKey tracked f.url) := by
        rw [List.filter_cons_of_neg]
        simp [hc]
      rw [hstep, hfil, ih]
    · have hcf : containsKey tracked x.url = false := Bool.eq_false_iff.mpr hc
      have hstep : backUnfollowStep tracked (a, b) x =
          (a ++ [x.url], b ++ [RemoteCall.unfollow x.follow_id]) := by
        simp [backUnfollowStep, hcf]
      have hfil : (x :: xs).filter (fun f => !containsKey tracked f.url) =
          x :: xs.filter (fun f => !containsKey tracked f.url) := by
        rw [List.filter_cons_of_pos]
        simp [hcf]
      rw [hstep, ih, hfil]
      simp

/-! The claims. -/

/-- C1: after forward synchronization with deletion enabled completes with
every per-series task succeeding (the embedding's gateway is total), and with
resolution consistent with the follow list (resolving a followed URL yields
the series whose canonical slug URL is that URL), the key set of the tracking
store equals exactly the URL set of the follow list: untracked follows were
inserted and tracked entries not followed any more were removed. -/
theorem claim_C1_forward_delete_keyset (g : Gateway)
    (follows : List FollowedSeries) (tracked : TrackedStore)
    (hcons : ∀ f ∈ follows, resolvedUrl g f.url = f.url) :
    (keyList (sync_series_forward g follows tracked true).tracked).toFinset =
      (follows.map FollowedSeries.url).toFinset := by
  ext u
  simp only [List.mem_toFinset]
  show u ∈ keyList (((follows.filter (fun f => !containsKey tracked f.url)).foldl
      (forwardTask g) (initState tracked)).tracked.filter (keepFollowed follows)) ↔
    u ∈ follows.map FollowedSeries.url
  rw [mem_keyList_filter_keep]
  constructor
  · rintro ⟨_, f, hf, hfu⟩
    exact List.mem_map.mpr ⟨f, hf, hfu⟩
  · intro hu
    rcases List.mem_map.mp hu with ⟨f, hf, rfl⟩
    refine ⟨?_, f, hf, rfl⟩
    rw [foldl_forward_tracked_mem]
    by_cases hct : containsKey tracked f.url
    · left
      show f.url ∈ keyList tracked
      exact (containsKey_iff tracked f.url).mp hct
    · right
      refine ⟨f, ?_, hcons f hf⟩
      exact (mem_filter_spawned tracked follows f).mpr
        ⟨hf, Bool.eq_false_iff.mpr hct⟩

/-- Witness for C1: a concrete consistent gateway, a follow list with one
series, and a store holding a different series; after forward sync with
deletion the store's key set is exactly the followed URL. -/
theorem claim_C1_witness :
    (∀ f ∈ [FollowedSeries.mk curA 1 []],
      resolvedUrl gatewayNoParts f.url = f.url) ∧
    (keyList (sync_series_forward gatewayNoParts [FollowedSeries.mk curA 1 []]
        [(curB, TrackValue.record ['B'] 1 none)] true).tracked).toFinset =
      ([FollowedSeries.mk curA 1 []].map FollowedSeries.url).toFinset :=
  ⟨by decide, claim_C1_forward_delete_keyset gatewayNoParts
    [FollowedSeries.mk curA 1 []] [(curB, TrackValue.record ['B'] 1 none)]
    (by decide)⟩

/-- C3: migration to the latest format is idempotent — applying
`_convert_to_latest_format` twice gives the same store as applying it once,
for every input mapping (legacy or current); in particular it is a no-op on
its own output. -/
theorem claim_C3_migration_idempotent (data : TrackedStore) :
    _convert_to_latest_format (_convert_to_latest_format data) =
      _convert_to_latest_format data :=
  migrate_idem data

/-- C8: forward sync issues gateway calls only on behalf of follows whose URL
is not already a key of the store — the call log is exactly the concatenation
of the per-task logs of the not-yet-tracked follows, and is empty when every
follow is already tracked, whatever the gateway returns. -/
theorem claim_C8_no_refetch_when_tracked (g : Gateway)
    (follows : List FollowedSeries) (tracked : TrackedStore) (d : Bool) :
    (sync_series_forward g follows tracked d).callLog =
      (follows.filter (fun f => !containsKey tracked f.url)).flatMap
        (syncCallsFor g) ∧
    ((∀ f ∈ follows, containsKey tracked f.url = true) →
      (sync_series_forward g follows tracked d).callLog = []) := by
  have hlog : (sync_series_forward g follows tracked d).callLog =
      (follows.filter (fun f => !containsKey tracked f.url)).flatMap
        (syncCallsFor g) := by
    cases d
    · exact foldl_forward_log g _ (initState tracked)
    · exact foldl_forward_log g _ (initState tracked)
  refine ⟨hlog, fun hall => ?_⟩
  have hnil : follows.filter (fun f => !containsKey tracked f.url) = [] := by
    rw [List.filter_eq_nil_iff]
    intro f hf
    simp [hall f hf]
  rw [hlog, hnil]
  rfl

/-- Witness for C8: with one followed series already present in the store,
forward sync issues no gateway call at all. -/
theorem claim_C8_witness :
    (sync_series_forward gatewayLastPart [FollowedSeries.mk curA 1 []]
      [(curA, TrackValue.record ['T'] 3 (some ['d']))] true).callLog = [] :=
  (claim_C8_no_refetch_when_tracked gatewayLastPart [FollowedSeries.mk curA 1 []]
    [(curA, TrackValue.record ['T'] 3 (some ['d']))] true).2 (by decide)

/-- C9: with deletion disabled, forward sync returns an empty removed list and
never removes a key from the store; and with an empty follow list (deletion
still disabled) the store is returned entirely unchanged. -/
theorem claim_C9_no_delete_frame (g : Gateway) (follows : List FollowedSeries)
    (tracked : TrackedStore) :
    (sync_series_forward g follows tracked false).del_synced = [] ∧
    (keyList tracked).toFinset ⊆
      (keyList (sync_series_forward g follows tracked false).tracked).toFinset ∧
    (sync_series_forward g [] tracked false).tracked = tracked := by
  refine ⟨?_, ?_, rfl⟩
  · exact foldl_forward_del g _ (initState tracked)
  · refine Finset.subset_iff.mpr ?_
    intro u hu
    rw [List.mem_toFinset] at hu ⊢
    show u ∈ keyList (((follows.filter (fun f => !containsKey tracked f.url)).foldl
        (forwardTask g) (initState tracked)).tracked)
    rw [foldl_forward_tracked_mem]
    exact Or.inl hu

/-- C2, code bug, evaluated at the failing input: a store tracking two series
(`curA` then `curB`) and an empty follow list.  The remote follow calls are
issued for exactly the two tracked series (ids 1 and 2) and `del_synced` is
empty, but the returned added list is two copies of the store's last key
`curB`: the late-bound `new_synced.append(series_url)` of line 200 makes
`curA` — a tracked URL absent from the follows, which the claim says must be
in the added collection — missing from it. -/
theorem claim_C2_backward_added_bug :
    (sync_series_backward gatewayTwoIds []
        [(curA, TrackValue.record ['A'] 1 none),
         (curB, TrackValue.record ['B'] 1 none)] true).2.2 =
      [RemoteCall.follow 1, RemoteCall.follow 2] ∧
    (sync_series_backward gatewayTwoIds []
        [(curA, TrackValue.record ['A'] 1 none),
         (curB, TrackValue.record ['B'] 1 none)] true).2.1 = [] ∧
    (sync_series_backward gatewayTwoIds []
        [(curA, TrackValue.record ['A'] 1 none),
         (curB, TrackValue.record ['B'] 1 none)] true).1 = [curB, curB] ∧
    curA ∈ keyList [(curA, TrackValue.record ['A'] 1 none),
         (curB, TrackValue.record ['B'] 1 none)] ∧
    curA ∉ (sync_series_backward gatewayTwoIds []
        [(curA, TrackValue.record ['A'] 1 none),
         (curB, TrackValue.record ['B'] 1 none)] true).1 := by
  decide

/-- C4: migration maps each stored pair as the code prescribes — a scalar
value turns its key (a slug) into the full canonical URL and becomes a record
with the original scalar as `part` and a name synthesized from the slug; a
record keeps its key and value; and in all cases the key is rewritten from
the legacy URL form to the current format.  Every entry of the migrated store
arises this way from some input pair, and every input pair's canonical key is
present in the migrated store. -/
theorem claim_C4_migration_rule :
    (∀ k p, _convert_to_latest_format [(k, TrackValue.scalar p)] =
      [(to_new_website_series_url (url_from_series_slug k),
        TrackValue.record (synthName k) p none)]) ∧
    (∀ k n p d, _convert_to_latest_format [(k, TrackValue.record n p d)] =
      [(to_new_website_series_url k, TrackValue.record n p d)]) ∧
    (∀ data q, q ∈ _convert_to_latest_format data →
      ∃ kv ∈ data, q = entryMap kv) ∧
    (∀ data kv, kv ∈ data →
      (entryMap kv).1 ∈ keyList (_convert_to_latest_format data)) := by
  refine ⟨fun k p => rfl, fun k n p d => rfl, migrate_entry_provenance, ?_⟩
  intro data kv hkv
  have hA : step1Key kv ∈ keyList (data.foldl convertStep1 []) := by
    rw [convert_foldl1_eq]
    exact (mem_keyList_foldl_setKey step1Key step1Val data [] (step1Key kv)).mpr
      (Or.inr ⟨kv, hkv, rfl⟩)
  rcases List.mem_map.mp hA with ⟨kv2, hkv2, h1⟩
  show to_new_website_series_url (step1Key kv) ∈
    keyList ((data.foldl convertStep1 []).foldl convertStep2 [])
  rw [convert_foldl2_eq]
  refine (mem_keyList_foldl_setKey (fun x => to_new_website_series_url x.1)
    (fun x => x.2) _ [] _).mpr (Or.inr ⟨kv2, hkv2, ?_⟩)
  rw [h1]

/-- Witness for C4 at a concrete legacy entry: the slug key with a scalar
value migrates to the canonical URL with a synthesized record, and its
canonical key is a key of the migrated store. -/
theorem claim_C4_witness :
    _convert_to_latest_format [(slugA, TrackValue.scalar 2)] =
      [(to_new_website_series_url (url_from_series_slug slugA),
        TrackValue.record (synthName slugA) 2 none)] ∧
    (entryMap (slugA, TrackValue.scalar 2)).1 ∈
      keyList (_convert_to_latest_format [(slugA, TrackValue.scalar 2)]) :=
  ⟨claim_C4_migration_rule.1 slugA 2,
   claim_C4_migration_rule.2.2.2 [(slugA, TrackValue.scalar 2)]
     (slugA, TrackValue.scalar 2) (List.mem_singleton.mpr rfl)⟩

/-- C5: the save path is atomic and deterministic — at every stage of the
write-to-temporary-then-rename save the target file still holds its original
content, only after the rename does it hold the serialized store, and the
serialization orders the store's pairs by sorted key while preserving exactly
the store's entries. -/
theorem claim_C5_atomic_sorted_save (orig tracked : TrackedStore) (n : Nat) :
    observed_target_file orig tracked SaveStage.beforeSave = orig ∧
    observed_target_file orig tracked (SaveStage.midTempWrite n) = orig ∧
    observed_target_file orig tracked SaveStage.tempComplete = orig ∧
    observed_target_file orig tracked SaveStage.afterRename =
      write_tracked_series tracked ∧
    (write_tracked_series tracked).Pairwise keyLeOn ∧
    (write_tracked_series tracked).Perm tracked := by
  refine ⟨rfl, rfl, rfl, rfl, ?_, ?_⟩
  · exact List.sorted_insertionSort keyLeOn tracked
  · exact List.perm_insertionSort keyLeOn tracked

/-- C6: loading returns the empty store when the file is missing, migrates a
parsed mapping before returning it, and surfaces a JSON parse failure as a
fatal error instead of swallowing it. -/
theorem claim_C6_load_behavior (d : TrackedStore) :
    read_tracked_series FileReadResult.missing = Except.ok [] ∧
    read_tracked_series (FileReadResult.content d) =
      Except.ok (_convert_to_latest_format d) ∧
    read_tracked_series FileReadResult.invalidJson =
      Except.error LoadError.jsonDecodeError :=
  ⟨rfl, rfl, rfl⟩

/-- C7 (amended): the entry inserted when tracking a series records part 0 and
the sentinel past date exactly when the series' last volume has no parts (or
it has no volumes), and otherwise the relative ordinal and launch timestamp
of the last part of the last volume; and parts metadata is fetched only for
the last volume. -/
theorem claim_C7_track_entry (g : Gateway) (tracked : TrackedStore)
    (s : SeriesH) :
    (lastPartOfLastVolume g s.series_id = none →
      getVal (track_series g tracked s).1 (url_from_series_slug s.raw_data.slug) =
        some (TrackValue.record s.raw_data.title 0 (some sentinelDate))) ∧
    (∀ p, lastPartOfLastVolume g s.series_id = some p →
      getVal (track_series g tracked s).1 (url_from_series_slug s.raw_data.slug) =
        some (TrackValue.record s.raw_data.title (to_relative_spec_from_part p)
          (some p.launch))) ∧
    (∀ vid, ApiCall.partsMeta vid ∈ (track_series g tracked s).2 →
      (g.fetch_volumes_meta s.series_id).getLast? = some vid) := by
  refine ⟨?_, ?_, ?_⟩
  · intro h
    show getVal (setKey tracked (url_from_series_slug s.raw_data.slug)
      (track_record g s)) (url_from_series_slug s.raw_data.slug) = _
    rw [getVal_setKey_self]
    simp [track_record, h]
  · intro p h
    show getVal (setKey tracked (url_from_series_slug s.raw_data.slug)
      (track_record g s)) (url_from_series_slug s.raw_data.slug) = _
    rw [getVal_setKey_self]
    simp [track_record, h]
  · intro vid hv
    rcases hl : (g.fetch_volumes_meta s.series_id).getLast? with _ | v
    · simp [track_series, track_calls, hl] at hv
    · simp [track_series, track_calls, hl] at hv
      rw [hv]

/-- Counterexample to C7 as stated: a series with two volumes whose first
volume has a published part but whose last volume is still empty — the series
does have published parts, yet the inserted entry records part 0 and the
sentinel date, and the claim's prescribed "last part of the last volume" does
not even exist. -/
theorem claim_C7_counterexample :
    hasPublishedParts gatewayEmptyLastVolume seriesA.series_id = true ∧
    gatewayEmptyLastVolume.fetch_parts_meta 2 = [] ∧
    (gatewayEmptyLastVolume.fetch_volumes_meta seriesA.series_id).getLast? =
      some 2 ∧
    getVal (track_series gatewayEmptyLastVolume [] seriesA).1
        (url_from_series_slug slugA) =
      some (TrackValue.record ['T'] 0 (some sentinelDate)) := by decide

/-- Witness for the amended C7: a series whose last volume has a last part
gets that part's relative ordinal and launch date recorded. -/
theorem claim_C7_witness :
    lastPartOfLastVolume gatewayLastPart seriesA.series_id =
      some (PartMeta.mk 3 ['d']) ∧
    getVal (track_series gatewayLastPart [] seriesA).1
        (url_from_series_slug slugA) =
      some (TrackValue.record ['T']
        (to_relative_spec_from_part (PartMeta.mk 3 ['d']))
        (some (PartMeta.mk 3 ['d']).launch)) :=
  ⟨by decide, (claim_C7_track_entry gatewayLastPart [] seriesA).2.1
    (PartMeta.mk 3 ['d']) (by decide)⟩

/-- Counterexample to C10 as stated: three distinct input keys (a bare slug, a
legacy URL and the current URL of the same series) all canonicalize to the
same current-format URL; the later colliding input key in iteration order is
the current URL (value `record 'C' 3`), yet the migrated store holds the
legacy URL's value (`record 'B' 2`), because the first pass merged the slug
entry into the current-URL position in place and the second pass then let the
legacy entry overwrite it. -/
theorem claim_C10_counterexample :
    (slugA ≠ legA ∧ legA ≠ curA ∧ slugA ≠ curA) ∧
    (entryMap (slugA, TrackValue.scalar 1)).1 = curA ∧
    (entryMap (legA, TrackValue.record ['B'] 2 none)).1 = curA ∧
    (entryMap (curA, TrackValue.record ['C'] 3 none)).1 = curA ∧
    _convert_to_latest_format
        [(slugA, TrackValue.scalar 1), (legA, TrackValue.record ['B'] 2 none),
         (curA, TrackValue.record ['C'] 3 none)] =
      [(curA, TrackValue.record ['B'] 2 none)] ∧
    TrackValue.record ['B'] 2 none ≠ TrackValue.record ['C'] 3 none := by
  decide

/-- C10 (amended): for a collision between exactly two input keys that
canonicalize to the same current-format URL, migration keeps a single entry
holding the later input key's value — last-writer-wins — with no error and a
strictly smaller store; for three-way collisions the winner is instead
determined by the first pass's in-place update order. -/
theorem claim_C10_two_key_lww (k1 k2 : Str) (v1 v2 : TrackValue)
    (h : (entryMap (k1, v1)).1 = (entryMap (k2, v2)).1) :
    _convert_to_latest_format [(k1, v1), (k2, v2)] = [entryMap (k2, v2)] := by
  have hp1 : ([(k1, v1), (k2, v2)] : TrackedStore).foldl convertStep1 [] =
      setKey [(step1Key (k1, v1), step1Val (k1, v1))] (step1Key (k2, v2))
        (step1Val (k2, v2)) := by
    show convertStep1 (convertStep1 [] (k1, v1)) (k2, v2) = _
    rw [convertStep1_eq, convertStep1_eq]
    rfl
  by_cases he : step1Key (k2, v2) = step1Key (k1, v1)
  · have hs : setKey [(step1Key (k1, v1), step1Val (k1, v1))]
        (step1Key (k2, v2)) (step1Val (k2, v2)) =
        [(step1Key (k2, v2), step1Val (k2, v2))] := by
      simp [setKey, he]
    show (([(k1, v1), (k2, v2)] : TrackedStore).foldl convertStep1 []).foldl
      convertStep2 [] = _
    rw [hp1, hs]
    rfl
  · have hne : (step1Key (k1, v1) == step1Key (k2, v2)) = false := by
      rw [beq_eq_false_iff_ne]
      exact fun hx => he hx.symm
    have hs : setKey [(step1Key (k1, v1), step1Val (k1, v1))]
        (step1Key (k2, v2)) (step1Val (k2, v2)) =
        [(step1Key (k1, v1), step1Val (k1, v1)),
         (step1Key (k2, v2), step1Val (k2, v2))] := by
      simp [setKey, hne]
    have hkey : to_new_website_series_url (step1Key (k1, v1)) =
        to_new_website_series_url (step1Key (k2, v2)) := h
    show (([(k1, v1), (k2, v2)] : TrackedStore).foldl convertStep1 []).foldl
      convertStep2 [] = _
    rw [hp1, hs]
    show setKey
      [(to_new_website_series_url (step1Key (k1, v1)), step1Val (k1, v1))]
      (to_new_website_series_url (step1Key (k2, v2))) (step1Val (k2, v2)) =
      [(to_new_website_series_url (step1Key (k2, v2)), step1Val (k2, v2))]
    rw [← hkey]
    simp [setKey]

/-- Witness for the amended C10: a legacy URL and the current URL of the same
series collide; the migrated store holds exactly the later (current URL)
entry. -/
theorem claim_C10_witness :
    (entryMap (legA, TrackValue.record ['B'] 2 none)).1 =
      (entryMap (curA, TrackValue.record ['C'] 3 none)).1 ∧
    _convert_to_latest_format
        [(legA, TrackValue.record ['B'] 2 none),
         (curA, TrackValue.record ['C'] 3 none)] =
      [entryMap (curA, TrackValue.record ['C'] 3 none)] :=
  ⟨by decide, claim_C10_two_key_lww legA curA
    (TrackValue.record ['B'] 2 none) (TrackValue.record ['C'] 3 none)
    (by decide)⟩

end Jncep
